import Mathlib

/-!
# Verification of the nano-get HTTP client core

Shallow embedding of the URL parser (`src/url/mod.rs`, `src/url/models.rs`),
the response parser (`src/response.rs`), the request header handling
(`src/request.rs`) and the body extractor (`src/http/mod.rs`) of the
nano-get crate, together with theorems settling the specification claims.

Strings are modelled as `List Char` (the 0.1 crate only ever slices at
character/substring boundaries, so a character-list model is faithful).
A Rust function that can panic (an `unwrap` that can fail) is embedded as
an `Option`-returning function, `none` marking the panic.
-/

/-- Character-list model of Rust `String`/`&str`. -/
abbrev Str := List Char

/-- Coerce a Lean string literal into the model. -/
def toStr (s : String) : Str := s.data

/-- The literal `"://"` used by the scheme split. -/
def protoSep : Str := toStr "://"

/-- The literal `"\r\n\r\n"` separating head block and body. -/
def crlfcrlf : Str := toStr "\r\n\r\n"

/-- The literal `"\r\n"` separating head lines. -/
def crlf : Str := toStr "\r\n"

/-- `hasSub pat s` holds when `pat` occurs as a contiguous substring of `s`
(Rust `s.contains(pat)` / `s.find(pat).is_some()` for non-empty `pat`). -/
def hasSub (pat : Str) : Str → Bool
  | [] => pat.isPrefixOf []
  | c :: t => pat.isPrefixOf (c :: t) || hasSub pat t

/-- Fuelled worker for `splitSub`; the fuel (always instantiated to the
input length, which suffices) only makes the recursion structural so that
the kernel can evaluate it. -/
def splitSubF (pat : Str) (fuel : Nat) (s : Str) : List Str :=
  match fuel, s with
  | _, [] => [[]]
  | 0, s => [s]
  | fuel + 1, c :: t =>
    if pat ≠ [] ∧ pat.isPrefixOf (c :: t) then
      [] :: splitSubF pat fuel (t.drop (pat.length - 1))
    else
      match splitSubF pat fuel t with
      | [] => [[c]]
      | h :: r => (c :: h) :: r

/-- Rust `s.split(pat)` for a non-empty substring pattern: splits at every
leftmost non-overlapping occurrence; always returns at least one part. -/
def splitSub (pat : Str) (s : Str) : List Str := splitSubF pat s.length s

/-- Rust `s.splitn(2, pat)` for a non-empty substring pattern: splits at
the first occurrence only, the second part keeping the whole rest. -/
def splitnTwoSub (pat : Str) (s : Str) : List Str :=
  match s with
  | [] => [[]]
  | c :: t =>
    if pat ≠ [] ∧ pat.isPrefixOf (c :: t) then
      [[], t.drop (pat.length - 1)]
    else
      match splitnTwoSub pat t with
      | [] => [[c]]
      | h :: r => (c :: h) :: r

/-- Rust `Tuple<&str>::from_iter` (`src/url/models.rs`): takes the first two
elements of the iterator and panics (`none`) when fewer than two exist. -/
def tupleCollect (parts : List Str) : Option (Str × Str) :=
  match parts with
  | a :: b :: _ => some (a, b)
  | _ => none

/-- `parse_proto` (`src/url/mod.rs:5`): split the input on `"://"`; with
more than one part the protocol is `parts[0]` and the rest is `parts[1]`;
otherwise the protocol is the given default (or `"http"`) and the rest is
the whole input. -/
def parse_proto (s : Str) (default_proto : Option Str) : Str × Str :=
  let parts := splitSub protoSep s
  if parts.length > 1 then
    (parts.headD [], parts.getD 1 [])
  else
    match default_proto with
    | some proto => (proto, parts.headD [])
    | none => (toStr "http", parts.headD [])

/-- `parse_full_domain` (`src/url/mod.rs:17`): split at the first `'/'`,
the path keeping the slash; with no `'/'` the path is the given default
(or `"/"`). -/
def parse_full_domain (s : Str) (default_path : Option Str) : Str × Str :=
  if s.contains '/' then
    (s.takeWhile (fun c => c ≠ '/'), s.dropWhile (fun c => c ≠ '/'))
  else
    match default_path with
    | some path => (s, path)
    | none => (s, toStr "/")

/-- `parse_host_and_port` (`src/url/mod.rs:30`): when the input contains a
`':'`, split at the first one via `splitn(2, ':')` collected into a `Tuple`
(which cannot panic here since the guard guarantees two parts); otherwise
the port is the given default, or `"80"` when no default is supplied. -/
def parse_host_and_port (s : Str) (default_port : Option Str) : Str × Str :=
  if s.contains ':' then
    match tupleCollect (splitnTwoSub (toStr ":") s) with
    | some (l, r) => (l, r)
    | none => ([], [])
  else
    match default_port with
    | some port => (s, port)
    | none => (s, toStr "80")

/-- The `URL` struct (`src/url/models.rs:9`). -/
structure URL where
  protocol : Str
  host : Str
  port : Str
  path : Str
  absolute : Str
deriving DecidableEq, Repr

/-- `URL::get_default_port_for_proto` (`src/url/models.rs:43`). -/
def URL.get_default_port_for_proto (proto : Str) : Option Str :=
  if proto = toStr "http" then some (toStr "80")
  else if proto = toStr "https" then some (toStr "443")
  else none

/-- `URL::new` (`src/url/models.rs:29`). -/
def URL.new (url : Str) : URL :=
  let pr := parse_proto url none
  let fd := parse_full_domain pr.2 none
  let hp := parse_host_and_port fd.1 (URL.get_default_port_for_proto pr.1)
  { protocol := pr.1, host := hp.1, port := hp.2, path := fd.2, absolute := url }

/-- Rust `char::is_whitespace`: the Unicode White_Space code points. -/
def rustIsWhitespace (c : Char) : Bool :=
  c.val = 0x09 || c.val = 0x0A || c.val = 0x0B || c.val = 0x0C || c.val = 0x0D ||
  c.val = 0x20 || c.val = 0x85 || c.val = 0xA0 || c.val = 0x1680 ||
  (0x2000 ≤ c.val && c.val ≤ 0x200A) || c.val = 0x2028 || c.val = 0x2029 ||
  c.val = 0x202F || c.val = 0x205F || c.val = 0x3000

/-- Rust `str::trim`: drop leading and trailing whitespace. -/
def rustTrim (s : Str) : Str :=
  (((s.dropWhile rustIsWhitespace).reverse).dropWhile rustIsWhitespace).reverse

/-- Rust `char::len_utf8`: the number of bytes in the UTF-8 encoding of a
character. -/
def utf8CharLen (c : Char) : Nat :=
  if c.val < 0x80 then 1
  else if c.val < 0x800 then 2
  else if c.val < 0x10000 then 3
  else 4

/-- Rust `str::len`: the UTF-8 byte length of a string (not the number of
characters). -/
def utf8Len (s : Str) : Nat := (s.map utf8CharLen).sum

/-- ASCII decimal digit test. -/
def isAsciiDigit (c : Char) : Bool := '0' ≤ c && c ≤ '9'

/-- Rust `str::parse::<u16>`: an optional leading `'+'`, then one or more
ASCII digits whose value fits in 16 bits; anything else is an error
(`none`). -/
def parseU16 (s : Str) : Option Nat :=
  let t := match s with
    | '+' :: r => r
    | _ => s
  if t ≠ [] ∧ t.all isAsciiDigit then
    let n := t.foldl (fun acc c => acc * 10 + (c.toNat - 48)) 0
    if n ≤ 65535 then some n else none
  else none

/-- The `StatusCode` enum (`src/response.rs:121`); the payloads are the
`u16` codes. -/
inductive StatusCode where
  | Informational (val : Nat)
  | Success (val : Nat)
  | Redirection (val : Nat)
  | ClientError (val : Nat)
  | ServerError (val : Nat)
  | Ignore
  | Failure
deriving DecidableEq, Repr

/-- `StatusCode::from_code` (`src/response.rs:159`): trim the token; a
trimmed UTF-8 byte length (Rust `code.len()`) other than 3 is `Failure`;
otherwise `parse::<u16>().unwrap()` (a failed parse panics, modelled
`none`) and classify by hundreds range. -/
def StatusCode.from_code (code : Str) : Option StatusCode :=
  if utf8Len (rustTrim code) ≠ 3 then
    some StatusCode.Failure
  else
    match parseU16 (rustTrim code) with
    | none => none
    | some code_num =>
      some (if 100 ≤ code_num ∧ code_num ≤ 199 then StatusCode.Informational code_num
        else if 200 ≤ code_num ∧ code_num ≤ 299 then StatusCode.Success code_num
        else if 300 ≤ code_num ∧ code_num ≤ 399 then StatusCode.Redirection code_num
        else if 400 ≤ code_num ∧ code_num ≤ 499 then StatusCode.ClientError code_num
        else if 500 ≤ code_num ∧ code_num ≤ 599 then StatusCode.ServerError code_num
        else StatusCode.Failure)

/-- Association-list model of `HashMap<String, String>`: keys unique,
iteration order irrelevant to the claims. -/
abbrev HMap := List (Str × Str)

/-- `HashMap::insert`: overwrite the value when the key is present,
append a new entry otherwise. -/
def hmInsert (m : HMap) (k v : Str) : HMap :=
  if m.any (fun p => p.1 = k) then
    m.map (fun p => if p.1 = k then (k, v) else p)
  else
    m ++ [(k, v)]

/-- `HashMap` key lookup. -/
def hmLookup (m : HMap) (k : Str) : Option Str :=
  (m.find? (fun p => p.1 = k)).map (fun p => p.2)

/-- `HashMap` key membership. -/
def hmMem (m : HMap) (k : Str) : Bool := m.any (fun p => p.1 = k)

/-- Processing of one head line by the loop body of
`process_response_headers` (`src/response.rs:88`): a line containing `':'`
is split at the first `':'` via `splitn(2, ':')` collected into a `Tuple`
(two parts are guaranteed by the guard), the key inserted literally and the
value trimmed; a line without `':'` is skipped. -/
def headerStep (m : HMap) (line : Str) : HMap :=
  if line.contains ':' then
    match tupleCollect (splitnTwoSub (toStr ":") line) with
    | some (k, v) => hmInsert m k (rustTrim v)
    | none => m
  else m

/-- `process_response_headers` (`src/response.rs:83`): `none` when the
slice of candidate header lines is empty, otherwise the map built by
folding `headerStep` over the lines. -/
def process_response_headers (lines : List Str) : Option HMap :=
  if lines.isEmpty then none
  else some (lines.foldl headerStep [])

/-- The `ResponseStatus` struct (`src/response.rs:102`): a status code and
an optional reason token. -/
abbrev ResponseStatus := StatusCode × Option Str

/-- `process_head_lines` (`src/response.rs:74`): split the first head line
on `' '`; `parts.get(1).unwrap()` panics (`none`) when there is no second
token, as does `lines.get(0).unwrap()` on an empty slice; otherwise
classify the code token, take `parts.get(2)` as the reason and process the
remaining lines as headers. -/
def process_head_lines (lines : List Str) : Option (ResponseStatus × Option HMap) :=
  match lines with
  | [] => none
  | head :: rest =>
    match (splitSub (toStr " ") head).get? 1 with
    | none => none
    | some codeTok =>
      match StatusCode.from_code codeTok with
      | none => none
      | some status_code =>
        some ((status_code, (splitSub (toStr " ") head).get? 2),
          process_response_headers rest)

/-- The `Response` struct (`src/response.rs:21`). -/
structure Response where
  status : ResponseStatus
  body : Str
  headers : Option HMap
deriving DecidableEq, Repr

/-- `new_response_from_complete` (`src/response.rs:61`): split the decoded
text once at the first `"\r\n\r\n"`, parse the first part (split on
`"\r\n"`) as the head block and keep the last part as the body; `none`
models the panics inside `process_head_lines`. -/
def new_response_from_complete (response : Str) : Option Response :=
  match process_head_lines (splitSub crlf ((splitnTwoSub crlfcrlf response).headD [])) with
  | none => none
  | some (resp_state, headers) =>
    some { status := resp_state,
           body := (splitnTwoSub crlfcrlf response).getLastD [],
           headers := headers }

/-- `parse_body_from_response` (`src/http/mod.rs:53`): the last part of the
two-way split at the first `"\r\n\r\n"` (the whole input when the
separator is absent). -/
def parse_body_from_response (response : Str) : Str :=
  (splitnTwoSub crlfcrlf response).getLastD []

/-- Observer: the space-separated parts of the status line of a raw
response, i.e. of the first `"\r\n"`-line of the text before the first
`"\r\n\r\n"` — exactly the `parts` vector computed by
`process_head_lines`. -/
def statusLineParts (s : Str) : List Str :=
  splitSub (toStr " ") ((splitSub crlf ((splitnTwoSub crlfcrlf s).headD [])).headD [])

/-- The `Request` struct (`src/request.rs:64`), restricted to the fields
the claims touch. -/
structure Request where
  url : URL
  headers : Option HMap
  body : Option Str

/-- `Request::get_default_headers` (`src/request.rs:167`): the four default
entries inserted into a fresh map. -/
def Request.get_default_headers (url : URL) : HMap :=
  hmInsert (hmInsert (hmInsert (hmInsert []
    (toStr "user-agent") (toStr "mini-get/0.1.0"))
    (toStr "accept") (toStr "*/*"))
    (toStr "host") url.host)
    (toStr "connection") (toStr "close")

/-- `Request::add_header` (`src/request.rs:243`): insert into the present
header map, or create a fresh map holding the one entry. -/
def Request.add_header (r : Request) (k v : Str) : Request :=
  match r.headers with
  | some m => { r with headers := some (hmInsert m k v) }
  | none => { r with headers := some (hmInsert [] k v) }

/-! ## General lemmas about the string-splitting primitives -/

theorem splitSubF_congr (pat : Str) {f1 f2 : Nat} {s : Str}
    (h1 : s.length ≤ f1) (h2 : s.length ≤ f2) :
    splitSubF pat f1 s = splitSubF pat f2 s := by
  induction f1 generalizing f2 s with
  | zero =>
    have : s = [] := List.length_eq_zero.mp (Nat.le_zero.mp h1)
    subst this
    cases f2 <;> rfl
  | succ f1' ih =>
    cases s with
    | nil => cases f2 <;> rfl
    | cons c t =>
      obtain ⟨f2', rfl⟩ : ∃ k, f2 = k + 1 := by
        cases f2 with
        | zero => simp at h2
        | succ k => exact ⟨k, rfl⟩
      rw [splitSubF, splitSubF]
      simp only [List.length_cons, Nat.add_le_add_iff_right] at h1 h2
      have hdrop1 : (t.drop (pat.length - 1)).length ≤ f1' :=
        le_trans (by rw [List.length_drop]; omega) h1
      have hdrop2 : (t.drop (pat.length - 1)).length ≤ f2' :=
        le_trans (by rw [List.length_drop]; omega) h2
      rw [ih hdrop1 hdrop2, ih h1 h2]

theorem splitSub_nil (pat : Str) : splitSub pat [] = [[]] := rfl

theorem splitSub_cons (pat : Str) (c : Char) (t : Str) :
    splitSub pat (c :: t) =
      if pat ≠ [] ∧ pat.isPrefixOf (c :: t) then
        [] :: splitSub pat (t.drop (pat.length - 1))
      else
        match splitSub pat t with
        | [] => [[c]]
        | h :: r => (c :: h) :: r := by
  unfold splitSub
  rw [List.length_cons, splitSubF]
  have hdrop : (t.drop (pat.length - 1)).length ≤ t.length := by
    rw [List.length_drop]; omega
  rw [splitSubF_congr pat hdrop (le_refl _)]

theorem hasSub_cons (pat : Str) (c : Char) (t : Str) :
    hasSub pat (c :: t) = (pat.isPrefixOf (c :: t) || hasSub pat t) := rfl

theorem hasSub_cons_false {pat : Str} {c : Char} {t : Str}
    (h : hasSub pat (c :: t) = false) :
    pat.isPrefixOf (c :: t) = false ∧ hasSub pat t = false := by
  rw [hasSub_cons] at h
  exact Bool.or_eq_false_iff.mp h

theorem splitSub_ne_nil (pat s : Str) : splitSub pat s ≠ [] := by
  match s with
  | [] => simp [splitSub_nil]
  | c :: t =>
    rw [splitSub_cons]
    split
    · simp
    · split <;> simp

theorem splitnTwoSub_ne_nil (pat s : Str) : splitnTwoSub pat s ≠ [] := by
  match s with
  | [] => simp [splitnTwoSub]
  | c :: t =>
    rw [splitnTwoSub]
    split
    · simp
    · split <;> simp

theorem splitnTwoSub_of_not_hasSub {pat : Str} (s : Str)
    (h : hasSub pat s = false) : splitnTwoSub pat s = [s] := by
  induction s with
  | nil => rfl
  | cons c t ih =>
    obtain ⟨h1, h2⟩ := hasSub_cons_false h
    rw [splitnTwoSub]
    rw [if_neg (by simp [h1])]
    rw [ih h2]

theorem splitSub_of_not_hasSub {pat : Str} (s : Str)
    (h : hasSub pat s = false) : splitSub pat s = [s] := by
  induction s with
  | nil => simp [splitSub_nil]
  | cons c t ih =>
    rw [splitSub_cons]
    obtain ⟨h1, h2⟩ := hasSub_cons_false h
    rw [if_neg (by simp [h1])]
    rw [ih h2]

theorem prefix_of_append_self_of_ne_nil {pat y b : Str} (hy : y ≠ [])
    (h : pat <+: y ++ pat ++ b) : pat <+: y ++ pat.take (pat.length - 1) := by
  have hy1 : 1 ≤ y.length := by
    cases y with
    | nil => exact absurd rfl hy
    | cons a t => simp
  rw [List.prefix_iff_eq_take] at h ⊢
  rw [List.append_assoc, List.take_append_eq_append_take,
    List.take_append_eq_append_take] at h
  have hz : pat.length - y.length - pat.length = 0 := by omega
  rw [hz, List.take_zero, List.append_nil] at h
  rw [List.take_append_eq_append_take, List.take_take]
  have hmin : min (pat.length - y.length) (pat.length - 1) =
      pat.length - y.length := by omega
  rw [hmin]
  exact h

theorem splitnTwoSub_append {pat : Str} (hpat : pat ≠ []) (a b : Str)
    (h : hasSub pat (a ++ pat.take (pat.length - 1)) = false) :
    splitnTwoSub pat (a ++ pat ++ b) = [a, b] := by
  induction a with
  | nil =>
    obtain ⟨p0, pt, rfl⟩ := List.exists_cons_of_ne_nil hpat
    rw [List.nil_append, List.cons_append, splitnTwoSub]
    rw [if_pos ⟨hpat, List.isPrefixOf_iff_prefix.mpr (List.prefix_append _ _)⟩]
    simp [List.drop_left']
  | cons c a' ih =>
    rw [List.cons_append] at h
    obtain ⟨h1, h2⟩ := hasSub_cons_false h
    rw [List.cons_append, List.cons_append, splitnTwoSub]
    rw [if_neg ?hguard]
    case hguard =>
      rintro ⟨-, hpre⟩
      rw [List.isPrefixOf_iff_prefix] at hpre
      rw [← List.cons_append, ← List.cons_append] at hpre
      have := prefix_of_append_self_of_ne_nil (by simp) hpre
      rw [List.cons_append, ← List.isPrefixOf_iff_prefix] at this
      rw [this] at h1
      exact Bool.noConfusion h1
    rw [ih h2]

theorem splitSub_append {pat : Str} (hpat : pat ≠ []) (a b : Str)
    (h : hasSub pat (a ++ pat.take (pat.length - 1)) = false) :
    splitSub pat (a ++ pat ++ b) = a :: splitSub pat b := by
  induction a with
  | nil =>
    obtain ⟨p0, pt, rfl⟩ := List.exists_cons_of_ne_nil hpat
    rw [List.nil_append, List.cons_append, splitSub_cons]
    rw [if_pos ⟨hpat, List.isPrefixOf_iff_prefix.mpr (List.prefix_append _ _)⟩]
    simp [List.drop_left']
  | cons c a' ih =>
    rw [List.cons_append] at h
    obtain ⟨h1, h2⟩ := hasSub_cons_false h
    rw [List.cons_append, List.cons_append, splitSub_cons]
    rw [if_neg ?hguard2]
    case hguard2 =>
      rintro ⟨-, hpre⟩
      rw [List.isPrefixOf_iff_prefix] at hpre
      rw [← List.cons_append, ← List.cons_append] at hpre
      have := prefix_of_append_self_of_ne_nil (by simp) hpre
      rw [List.cons_append, ← List.isPrefixOf_iff_prefix] at this
      rw [this] at h1
      exact Bool.noConfusion h1
    rw [ih h2]

theorem hasSub_singleton (c : Char) (s : Str) : hasSub [c] s = s.contains c := by
  induction s with
  | nil => simp [hasSub]
  | cons x t ih =>
    rw [hasSub_cons, ih]
    simp only [List.isPrefixOf, List.isPrefixOf_nil_left, Bool.and_true]
    by_cases hcx : c = x
    · subst hcx
      simp [List.contains_cons]
    · simp [List.contains_cons, hcx, Ne.symm hcx]

theorem splitnTwoSub_singleton (c : Char) (s : Str) :
    splitnTwoSub [c] s =
      if s.contains c then
        [s.takeWhile (fun x => x ≠ c), (s.dropWhile (fun x => x ≠ c)).drop 1]
      else [s] := by
  induction s with
  | nil => simp [splitnTwoSub]
  | cons x t ih =>
    rw [splitnTwoSub]
    by_cases hcx : c = x
    · subst hcx
      rw [if_pos ⟨by simp, by simp [List.isPrefixOf]⟩]
      simp [List.contains_cons, List.takeWhile_cons, List.dropWhile_cons]
    · rw [if_neg (by simp [List.isPrefixOf, hcx])]
      rw [ih]
      have hcont : (x :: t).contains c = t.contains c := by
        rw [List.contains_cons, beq_eq_false_iff_ne.mpr hcx, Bool.false_or]
      by_cases hct : t.contains c = true
      · rw [if_pos hct, hcont, if_pos hct]
        simp [List.takeWhile_cons, List.dropWhile_cons, Ne.symm hcx]
      · rw [if_neg hct, hcont, if_neg hct]

theorem contains_takeWhile_ne (c : Char) (s : Str) :
    (s.takeWhile (fun x => x ≠ c)).contains c = false := by
  by_contra hc
  have hmem : c ∈ s.takeWhile (fun x => x ≠ c) := by
    have := Bool.of_not_eq_false hc
    simpa [List.contains] using this
  have := List.mem_takeWhile_imp hmem
  simp at this

theorem dropWhile_ne_eq_cons {c : Char} {s : Str} (h : s.contains c = true) :
    ∃ t, s.dropWhile (fun x => x ≠ c) = c :: t := by
  induction s with
  | nil => simp [List.contains] at h
  | cons x t ih =>
    by_cases hcx : x = c
    · subst hcx
      exact ⟨t, by simp [List.dropWhile_cons]⟩
    · have hct : t.contains c = true := by
        simpa [List.contains_cons, hcx, Ne.symm hcx] using h
      obtain ⟨u, hu⟩ := ih hct
      refine ⟨u, ?_⟩
      rw [List.dropWhile_cons, if_pos (by simp [hcx])]
      exact hu

theorem protoSep_eq : protoSep = [':', '/', '/'] := rfl

theorem crlf_eq : crlf = ['\r', '\n'] := rfl

theorem crlfcrlf_eq : crlfcrlf = ['\r', '\n', '\r', '\n'] := rfl

/-- The pattern `"://"` cannot straddle the boundary between a
`"://"`-free block and a following `"://"`: appending the first two
pattern characters to such a block keeps it pattern-free. -/
theorem protoSep_noSpill {a : Str} (h : hasSub protoSep a = false) :
    hasSub protoSep (a ++ [':', '/']) = false := by
  induction a with
  | nil => decide
  | cons c a' ih =>
    obtain ⟨h1, h2⟩ := hasSub_cons_false h
    rw [List.cons_append, hasSub_cons, ih h2, Bool.or_false]
    match a' with
    | [] => simp [protoSep_eq, List.isPrefixOf]
    | [d] => simp [protoSep_eq, List.isPrefixOf]
    | d :: e :: a'' =>
      rw [protoSep_eq] at h1 ⊢
      simp only [List.cons_append, List.isPrefixOf, List.isPrefixOf_nil_left,
        Bool.and_true] at h1 ⊢
      exact h1

/-! ## Lemmas about the header-map model -/

/-- The keys of a header map, in insertion order. -/
def hmKeys (m : HMap) : List Str := m.map (fun p => p.1)

theorem hmMem_iff_mem_hmKeys (m : HMap) (k : Str) :
    hmMem m k = true ↔ k ∈ hmKeys m := by
  unfold hmMem hmKeys
  rw [List.any_eq_true]
  constructor
  · rintro ⟨p, hp, hpk⟩
    rw [decide_eq_true_iff] at hpk
    exact hpk ▸ List.mem_map_of_mem _ hp
  · intro hk
    obtain ⟨p, hp, hpk⟩ := List.mem_map.mp hk
    exact ⟨p, hp, by simp [hpk]⟩

theorem hmInsert_cons_of_ne {p : Str × Str} {m : HMap} (k v : Str) (h : p.1 ≠ k) :
    hmInsert (p :: m) k v = p :: hmInsert m k v := by
  simp only [hmInsert, List.any_cons, decide_eq_false h, Bool.false_or,
    List.map_cons, if_neg h]
  by_cases hm : m.any (fun q => decide (q.1 = k)) = true
  · rw [if_pos hm, if_pos hm]
  · rw [if_neg hm, if_neg hm, List.cons_append]

theorem hmLookup_hmInsert_self (m : HMap) (k v : Str) :
    hmLookup (hmInsert m k v) k = some v := by
  induction m with
  | nil => simp [hmInsert, hmLookup, List.find?]
  | cons p m' ih =>
    by_cases hpk : p.1 = k
    · have hany : (p :: m').any (fun q => decide (q.1 = k)) = true := by
        simp [List.any_cons, hpk]
      simp only [hmInsert, hany, if_true, List.map_cons, if_pos hpk]
      simp [hmLookup, List.find?]
    · rw [hmInsert_cons_of_ne k v hpk]
      unfold hmLookup at ih ⊢
      rw [List.find?_cons_of_neg _ (by simp [hpk])]
      exact ih

theorem hmInsert_length_of_mem {m : HMap} {k : Str} (v : Str)
    (h : hmMem m k = true) : (hmInsert m k v).length = m.length := by
  unfold hmMem at h
  unfold hmInsert
  rw [if_pos h, List.length_map]

theorem hmKeys_hmInsert_of_mem {m : HMap} {k : Str} (v : Str)
    (h : hmMem m k = true) : hmKeys (hmInsert m k v) = hmKeys m := by
  unfold hmMem at h
  unfold hmInsert
  rw [if_pos h]
  unfold hmKeys
  rw [List.map_map]
  apply List.map_congr_left
  intro p _
  by_cases hp : p.1 = k
  · simp [Function.comp, hp]
  · simp [Function.comp, hp]

theorem hmKeys_hmInsert_of_not_mem {m : HMap} {k : Str} (v : Str)
    (h : hmMem m k = false) : hmKeys (hmInsert m k v) = hmKeys m ++ [k] := by
  unfold hmMem at h
  unfold hmInsert
  rw [if_neg (by simp [h])]
  unfold hmKeys
  rw [List.map_append]
  rfl

theorem hmKeys_nodup_hmInsert {m : HMap} (k v : Str)
    (h : (hmKeys m).Nodup) : (hmKeys (hmInsert m k v)).Nodup := by
  by_cases hm : hmMem m k = true
  · rw [hmKeys_hmInsert_of_mem v hm]
    exact h
  · rw [hmKeys_hmInsert_of_not_mem v (Bool.eq_false_iff.mpr hm)]
    rw [List.nodup_append]
    refine ⟨h, List.nodup_singleton k, ?_⟩
    intro x hx hxmem
    rw [List.mem_singleton] at hxmem
    subst hxmem
    exact hm ((hmMem_iff_mem_hmKeys _ _).mpr hx)

theorem hmMem_hmInsert_of_mem {m : HMap} {q : Str} (k v : Str)
    (h : hmMem m q = true) : hmMem (hmInsert m k v) q = true := by
  rw [hmMem_iff_mem_hmKeys] at h ⊢
  by_cases hm : hmMem m k = true
  · rw [hmKeys_hmInsert_of_mem v hm]
    exact h
  · rw [hmKeys_hmInsert_of_not_mem v (Bool.eq_false_iff.mpr hm)]
    exact List.mem_append_left _ h

theorem get_default_headers_eq (u : URL) :
    Request.get_default_headers u =
      [(toStr "user-agent", toStr "mini-get/0.1.0"),
       (toStr "accept", toStr "*/*"),
       (toStr "host", u.host),
       (toStr "connection", toStr "close")] := rfl

/-! ## URL parser facts -/

theorem parse_host_and_port_fst_no_colon (s : Str) (dp : Option Str) :
    ((parse_host_and_port s dp).1).contains ':' = false := by
  unfold parse_host_and_port
  by_cases hs : s.contains ':' = true
  · rw [if_pos hs]
    have hts : toStr ":" = [':'] := rfl
    rw [hts, splitnTwoSub_singleton, if_pos hs]
    simp only [tupleCollect]
    exact contains_takeWhile_ne ':' s
  · rw [if_neg hs]
    have hs' : s.contains ':' = false := Bool.eq_false_iff.mpr hs
    cases dp with
    | none => exact hs'
    | some port => exact hs'

theorem parse_full_domain_snd_starts_slash (s : Str) :
    ∃ rest, (parse_full_domain s none).2 = '/' :: rest := by
  unfold parse_full_domain
  by_cases hs : s.contains '/' = true
  · rw [if_pos hs]
    exact dropWhile_ne_eq_cons hs
  · rw [if_neg hs]
    exact ⟨[], rfl⟩

/-- **C7**: for every input string, the `URL` value built by `URL::new`
has a host containing no `':'` and a non-empty path starting with `'/'`. -/
theorem c7_url_new_invariants (s : Str) :
    (URL.new s).host.contains ':' = false ∧
    (URL.new s).path ≠ [] ∧ ∃ rest, (URL.new s).path = '/' :: rest := by
  refine ⟨parse_host_and_port_fst_no_colon _ _, ?_, parse_full_domain_snd_starts_slash _⟩
  obtain ⟨rest, hr⟩ := parse_full_domain_snd_starts_slash (parse_proto s none).2
  have hpath : (URL.new s).path = '/' :: rest := hr
  simp [hpath]

/-- **C6**: an input without `"://"` gets protocol `"http"`; an input of
the form `scheme ++ "://" ++ rest` gets exactly the text before the first
`"://"` as its protocol. -/
theorem c6_protocol_from_scheme_split :
    (∀ s : Str, hasSub protoSep s = false → (URL.new s).protocol = toStr "http") ∧
    (∀ a b : Str, hasSub protoSep a = false →
      (URL.new (a ++ protoSep ++ b)).protocol = a) := by
  constructor
  · intro s h
    simp only [URL.new, parse_proto]
    rw [splitSub_of_not_hasSub s h]
    simp
  · intro a b h
    simp only [URL.new, parse_proto]
    have htake : protoSep.take (protoSep.length - 1) = [':', '/'] := rfl
    have hns : hasSub protoSep (a ++ protoSep.take (protoSep.length - 1)) = false := by
      rw [htake]
      exact protoSep_noSpill h
    rw [splitSub_append (by rw [protoSep_eq]; simp) a b hns]
    obtain ⟨x, r, hxr⟩ : ∃ x r, splitSub protoSep b = x :: r := by
      cases hsb : splitSub protoSep b with
      | nil => exact absurd hsb (splitSub_ne_nil protoSep b)
      | cons x r => exact ⟨x, r, rfl⟩
    rw [hxr]
    simp

/-- **C6** witness at concrete inputs. -/
theorem c6_protocol_witness :
    (URL.new (toStr "nosep-here")).protocol = toStr "http" ∧
    (URL.new (toStr "ftp://h/")).protocol = toStr "ftp" := by
  constructor
  · exact c6_protocol_from_scheme_split.1 (toStr "nosep-here") (by decide)
  · have h : toStr "ftp://h/" = toStr "ftp" ++ protoSep ++ toStr "h/" := by decide
    rw [h]
    exact c6_protocol_from_scheme_split.2 (toStr "ftp") (toStr "h/") (by decide)

/-- **C5** counterexample: on `"a://b://c"` the scheme split returns `"b"`
as the remainder, not the full text `"b://c"` after the first `"://"` —
`split("://")` followed by `parts[1]` drops everything from the second
`"://"` on. -/
theorem c5_remainder_counterexample :
    (parse_proto (toStr "a://b://c") none).2 = toStr "b" ∧
    (parse_proto (toStr "a://b://c") none).2 ≠ toStr "b://c" := by decide

/-- **C5** (amended): when the input contains exactly one `"://"` the
remainder is everything after it, but when a second `"://"` occurs the
remainder stops right before it: the text from the second `"://"` onward is
dropped. -/
theorem c5_remainder_amended :
    (∀ a b : Str, ∀ dp : Option Str, hasSub protoSep a = false →
      hasSub protoSep b = false →
      parse_proto (a ++ protoSep ++ b) dp = (a, b)) ∧
    (∀ a b c : Str, ∀ dp : Option Str, hasSub protoSep a = false →
      hasSub protoSep b = false →
      parse_proto (a ++ protoSep ++ b ++ protoSep ++ c) dp = (a, b)) := by
  have htake : protoSep.take (protoSep.length - 1) = [':', '/'] := rfl
  have hpne : protoSep ≠ [] := by rw [protoSep_eq]; simp
  constructor
  · intro a b dp ha hb
    have hns : hasSub protoSep (a ++ protoSep.take (protoSep.length - 1)) = false := by
      rw [htake]
      exact protoSep_noSpill ha
    simp only [parse_proto]
    rw [splitSub_append hpne a b hns, splitSub_of_not_hasSub b hb]
    simp
  · intro a b c dp ha hb
    have hnsa : hasSub protoSep (a ++ protoSep.take (protoSep.length - 1)) = false := by
      rw [htake]
      exact protoSep_noSpill ha
    have hnsb : hasSub protoSep (b ++ protoSep.take (protoSep.length - 1)) = false := by
      rw [htake]
      exact protoSep_noSpill hb
    simp only [parse_proto]
    rw [List.append_assoc, List.append_assoc, ← List.append_assoc b]
    rw [splitSub_append hpne a (b ++ protoSep ++ c) hnsa]
    rw [splitSub_append hpne b c hnsb]
    simp

/-- **C5** witness at the counterexample input. -/
theorem c5_remainder_amended_witness :
    parse_proto (toStr "a://b://c") none = (toStr "a", toStr "b") := by
  have h : toStr "a://b://c" =
      toStr "a" ++ protoSep ++ toStr "b" ++ protoSep ++ toStr "c" := by decide
  rw [h]
  exact c5_remainder_amended.2 (toStr "a") (toStr "b") (toStr "c") none
    (by decide) (by decide)

/-- **C1** counterexample: `URL::new("ftp://h/")` gets port `"80"`, not an
unset/empty port — `parse_host_and_port` falls back to `"80"` even when no
scheme default exists. -/
theorem c1_other_scheme_port_counterexample :
    (URL.new (toStr "ftp://h/")).port = toStr "80" ∧
    (URL.new (toStr "ftp://h/")).port ≠ [] := by decide

/-- **C1** (amended): for a URL whose protocol is neither `"http"` nor
`"https"` and whose domain block carries no explicit `":port"`, the port
still defaults to `"80"` (the `"443"` default applies only to `"https"`):
`get_default_port_for_proto` yields no default for other schemes, but the
host/port splitter substitutes `"80"` when given none. -/
theorem c1_other_scheme_port_amended (s : Str)
    (hh : (URL.new s).protocol ≠ toStr "http")
    (hhs : (URL.new s).protocol ≠ toStr "https")
    (hc : ((parse_full_domain (parse_proto s none).2 none).1).contains ':' = false) :
    (URL.new s).port = toStr "80" := by
  simp only [URL.new] at hh hhs ⊢
  unfold parse_host_and_port
  rw [if_neg (by rw [hc]; exact Bool.false_ne_true)]
  unfold URL.get_default_port_for_proto
  rw [if_neg hh, if_neg hhs]

/-- **C1** witness at the counterexample input. -/
theorem c1_other_scheme_port_witness :
    (URL.new (toStr "ftp://h/")).port = toStr "80" :=
  c1_other_scheme_port_amended (toStr "ftp://h/") (by decide) (by decide) (by decide)

/-! ## Response parser facts -/

/-- **C3** counterexample: the token `"€"` is a single character after
trimming, so the claim's 3-character rule predicts classification
`Failure`; but the code's length check counts UTF-8 bytes
(`"€".len() == 3`), the check passes, and `code.parse().unwrap()` panics
(modelled `none`). Conversely the 3-character token `"1€2"` is 5 bytes and
is classified `Failure` by the length rule instead of being parsed. -/
theorem c3_status_code_classification_counterexample :
    ((rustTrim (toStr "€")).length = 1 ∧
      StatusCode.from_code (toStr "€") = none) ∧
    ((rustTrim (toStr "1€2")).length = 3 ∧
      StatusCode.from_code (toStr "1€2") = some StatusCode.Failure) := by
  decide

/-- **C3** (amended): a status-code token whose trimmed UTF-8 **byte**
length (Rust `code.len()`) is not 3 classifies as `Failure` — the check
counts bytes, not characters; otherwise the token parses as an unsigned
integer and classifies as `Informational` (100–199), `Success` (200–299),
`Redirection` (300–399), `ClientError` (400–499), `ServerError` (500–599),
and `Failure` for any other value such as 600. -/
theorem c3_status_code_classification (code : Str) :
    (utf8Len (rustTrim code) ≠ 3 →
      StatusCode.from_code code = some StatusCode.Failure) ∧
    (∀ n : Nat, utf8Len (rustTrim code) = 3 → parseU16 (rustTrim code) = some n →
      ((100 ≤ n ∧ n ≤ 199 →
          StatusCode.from_code code = some (StatusCode.Informational n)) ∧
       (200 ≤ n ∧ n ≤ 299 →
          StatusCode.from_code code = some (StatusCode.Success n)) ∧
       (300 ≤ n ∧ n ≤ 399 →
          StatusCode.from_code code = some (StatusCode.Redirection n)) ∧
       (400 ≤ n ∧ n ≤ 499 →
          StatusCode.from_code code = some (StatusCode.ClientError n)) ∧
       (500 ≤ n ∧ n ≤ 599 →
          StatusCode.from_code code = some (StatusCode.ServerError n)) ∧
       ((n < 100 ∨ 600 ≤ n) →
          StatusCode.from_code code = some StatusCode.Failure))) := by
  constructor
  · intro h
    unfold StatusCode.from_code
    rw [if_pos h]
  · intro n hlen hp
    simp only [StatusCode.from_code, if_neg (not_not_intro hlen), hp]
    refine ⟨?_, ?_, ?_, ?_, ?_, ?_⟩ <;> intro hr
    · rw [if_pos hr]
    · rw [if_neg (by omega), if_pos hr]
    · rw [if_neg (by omega), if_neg (by omega), if_pos hr]
    · rw [if_neg (by omega), if_neg (by omega), if_neg (by omega), if_pos hr]
    · rw [if_neg (by omega), if_neg (by omega), if_neg (by omega),
        if_neg (by omega), if_pos hr]
    · rw [if_neg (by omega), if_neg (by omega), if_neg (by omega),
        if_neg (by omega), if_neg (by omega)]

/-- **C3** witness at concrete tokens. -/
theorem c3_status_code_classification_witness :
    StatusCode.from_code (toStr " 404 ") = some (StatusCode.ClientError 404) ∧
    StatusCode.from_code (toStr "99") = some StatusCode.Failure ∧
    StatusCode.from_code (toStr "600") = some StatusCode.Failure := by
  refine ⟨?_, ?_, ?_⟩
  · exact ((c3_status_code_classification (toStr " 404 ")).2 404 (by decide)
      (by decide)).2.2.2.1 (by omega)
  · exact (c3_status_code_classification (toStr "99")).1 (by decide)
  · exact ((c3_status_code_classification (toStr "600")).2 600 (by decide)
      (by decide)).2.2.2.2.2 (by omega)

/-- **C8**: a head line yields a header entry exactly when it contains
`':'`; it is split at the first `':'`, the key is the literal left
substring, the value is the right substring trimmed; colon-free lines are
skipped; and the headers field is `none` exactly when the slice of header
lines is empty. -/
theorem c8_header_line_parsing :
    (∀ lines : List Str, process_response_headers lines = none ↔ lines = []) ∧
    (∀ (m : HMap) (l : Str), l.contains ':' = false → headerStep m l = m) ∧
    (∀ (m : HMap) (a b : Str), a.contains ':' = false →
      headerStep m (a ++ ':' :: b) = hmInsert m a (rustTrim b)) := by
  refine ⟨?_, ?_, ?_⟩
  · intro lines
    cases lines with
    | nil => simp [process_response_headers]
    | cons l ls => simp [process_response_headers]
  · intro m l h
    unfold headerStep
    rw [if_neg (by rw [h]; exact Bool.false_ne_true)]
  · intro m a b h
    unfold headerStep
    have hcont : (a ++ ':' :: b).contains ':' = true := by
      simp [List.contains]
    rw [if_pos hcont]
    have hts : toStr ":" = [':'] := rfl
    have hform : a ++ ':' :: b = a ++ [':'] ++ b := by simp
    have hsplit : splitnTwoSub (toStr ":") (a ++ ':' :: b) = [a, b] := by
      rw [hts, hform]
      apply splitnTwoSub_append (by simp) a b
      have h0 : ([':'] : Str).take (([':'] : Str).length - 1) = [] := rfl
      rw [h0, List.append_nil, hasSub_singleton]
      exact h
    rw [hsplit]
    rfl

/-- **C8** witness at concrete lines. -/
theorem c8_header_line_parsing_witness :
    process_response_headers [] = none ∧
    headerStep [] (toStr "no colon line") = [] ∧
    headerStep [] (toStr "X-Key: v ") =
      hmInsert [] (toStr "X-Key") (rustTrim (toStr " v ")) := by
  refine ⟨(c8_header_line_parsing.1 []).mpr rfl,
    c8_header_line_parsing.2.1 [] (toStr "no colon line") (by decide), ?_⟩
  have h : toStr "X-Key: v " = toStr "X-Key" ++ ':' :: toStr " v " := by decide
  rw [h]
  exact c8_header_line_parsing.2.2 [] (toStr "X-Key") (toStr " v ") (by decide)

/-- **C9**: `add_header` on a request holding the default headers is
insert-or-overwrite with last-write-wins: adding a header whose key
already exists replaces the stored value, keeps the number of entries
unchanged, keeps the keys unique, and removes no existing header. -/
theorem c9_add_header_overwrite (u : URL) (b : Option Str) (k v : Str)
    (hk : hmMem (Request.get_default_headers u) k = true) :
    (Request.add_header
        { url := u, headers := some (Request.get_default_headers u), body := b }
        k v).headers = some (hmInsert (Request.get_default_headers u) k v) ∧
      hmLookup (hmInsert (Request.get_default_headers u) k v) k = some v ∧
      (hmInsert (Request.get_default_headers u) k v).length =
        (Request.get_default_headers u).length ∧
      (hmKeys (hmInsert (Request.get_default_headers u) k v)).Nodup ∧
      (∀ q, hmMem (Request.get_default_headers u) q = true →
        hmMem (hmInsert (Request.get_default_headers u) k v) q = true) := by
  refine ⟨rfl,
    hmLookup_hmInsert_self _ _ _,
    hmInsert_length_of_mem v hk,
    hmKeys_nodup_hmInsert k v ?_,
    fun q hq => hmMem_hmInsert_of_mem k v hq⟩
  rw [get_default_headers_eq]
  have hkeys : hmKeys
      [(toStr "user-agent", toStr "mini-get/0.1.0"),
       (toStr "accept", toStr "*/*"),
       (toStr "host", u.host),
       (toStr "connection", toStr "close")] =
      [toStr "user-agent", toStr "accept", toStr "host", toStr "connection"] := rfl
  rw [hkeys]
  decide

/-- **C9** witness: overwriting the defaulted `accept` header. -/
theorem c9_add_header_overwrite_witness :
    (Request.add_header
        { url := URL.new (toStr "http://h/"),
          headers := some (Request.get_default_headers (URL.new (toStr "http://h/"))),
          body := none }
        (toStr "accept") (toStr "text/plain")).headers =
      some (hmInsert (Request.get_default_headers (URL.new (toStr "http://h/")))
        (toStr "accept") (toStr "text/plain")) ∧
    hmLookup (hmInsert (Request.get_default_headers (URL.new (toStr "http://h/")))
        (toStr "accept") (toStr "text/plain")) (toStr "accept") =
      some (toStr "text/plain") ∧
    (hmInsert (Request.get_default_headers (URL.new (toStr "http://h/")))
        (toStr "accept") (toStr "text/plain")).length =
      (Request.get_default_headers (URL.new (toStr "http://h/"))).length ∧
    hmMem (hmInsert (Request.get_default_headers (URL.new (toStr "http://h/")))
        (toStr "accept") (toStr "text/plain")) (toStr "host") = true := by
  have h := c9_add_header_overwrite (URL.new (toStr "http://h/")) none
    (toStr "accept") (toStr "text/plain") (by decide)
  exact ⟨h.1, h.2.1, h.2.2.1, h.2.2.2.2 (toStr "host") (by decide)⟩

theorem new_response_eq (s : Str) (h0 : Str) (rest : List Str) (tok : Str)
    (sc : StatusCode)
    (hhl : splitSub crlf ((splitnTwoSub crlfcrlf s).headD []) = h0 :: rest)
    (htk : (splitSub (toStr " ") h0).get? 1 = some tok)
    (hsc : StatusCode.from_code tok = some sc) :
    new_response_from_complete s = some
      { status := (sc, (splitSub (toStr " ") h0).get? 2),
        body := (splitnTwoSub crlfcrlf s).getLastD [],
        headers := process_response_headers rest } := by
  simp only [new_response_from_complete, process_head_lines, hhl, htk, hsc]

/-- **C10** counterexample: for the separator-free input `"hello"`
response parsing returns no `Response` at all — the status line `"hello"`
has no second space-separated token, so `parts.get(1).unwrap()` panics
(modelled `none`) — rather than returning a `Response` whose body is the
whole input. -/
theorem c10_no_separator_counterexample :
    hasSub crlfcrlf (toStr "hello") = false ∧
    new_response_from_complete (toStr "hello") = none := by decide

/-- **C10** (amended): when a response contains no `"\r\n\r\n"` separator
at all, the body extractor returns the entire input string, and whenever
response parsing returns a `Response` at all (the status line must parse,
else it panics) its body equals the entire input string — head block and
body are the same text — not an empty body. -/
theorem c10_no_separator_body_whole (s : Str)
    (h : hasSub crlfcrlf s = false) :
    parse_body_from_response s = s ∧
    (∀ r, new_response_from_complete s = some r → r.body = s) := by
  have hsplit := splitnTwoSub_of_not_hasSub s h
  constructor
  · unfold parse_body_from_response
    rw [hsplit]
    rfl
  · intro r hr
    cases hph : process_head_lines (splitSub crlf ([s].headD [])) with
    | none =>
      simp only [new_response_from_complete, hsplit, hph] at hr
      exact Option.noConfusion hr
    | some p =>
      obtain ⟨st, hd⟩ := p
      simp only [new_response_from_complete, hsplit, hph,
        Option.some.injEq] at hr
      rw [← hr]
      rfl

/-- **C10** witness at a concrete separator-free response. -/
theorem c10_no_separator_body_witness :
    parse_body_from_response (toStr "HTTP/1.1 200 OK") = toStr "HTTP/1.1 200 OK" ∧
    (new_response_from_complete (toStr "HTTP/1.1 200 OK")).map Response.body =
      some (toStr "HTTP/1.1 200 OK") := by
  have h := c10_no_separator_body_whole (toStr "HTTP/1.1 200 OK") (by decide)
  refine ⟨h.1, ?_⟩
  cases he : new_response_from_complete (toStr "HTTP/1.1 200 OK") with
  | none => exact absurd he (by decide)
  | some r =>
    rw [Option.map_some']
    rw [h.2 r he]

/-- **C4**: a response text of shape `head ++ "\r\n\r\n" ++ rest`, where
the shown separator is the first occurrence, is split exactly once: the
head block is parsed from the left part and the body is the right part
byte-for-byte, embedded `"\r\n\r\n"` included. -/
theorem c4_single_split_first_separator (a b : Str)
    (h : hasSub crlfcrlf (a ++ crlfcrlf.take 3) = false) :
    new_response_from_complete (a ++ crlfcrlf ++ b) =
      (process_head_lines (splitSub crlf a)).map
        (fun p => { status := p.1, body := b, headers := p.2 }) := by
  have hpne : crlfcrlf ≠ [] := by rw [crlfcrlf_eq]; simp
  have htake : crlfcrlf.take (crlfcrlf.length - 1) = crlfcrlf.take 3 := rfl
  have hsplit := splitnTwoSub_append hpne a b (by rw [htake]; exact h)
  cases hph : process_head_lines (splitSub crlf a) with
  | none =>
    simp only [new_response_from_complete, hsplit, List.headD_cons, hph]
    rfl
  | some p =>
    obtain ⟨st, hd⟩ := p
    simp only [new_response_from_complete, hsplit, List.headD_cons, hph]
    rfl

/-- **C4** witness: `"HTTP/1.1 200 OK\r\n\r\nA\r\n\r\nB"` parses to body
`"A\r\n\r\nB"`. -/
theorem c4_single_split_witness :
    (new_response_from_complete
        (toStr "HTTP/1.1 200 OK\r\n\r\nA\r\n\r\nB")).map Response.body =
      some (toStr "A\r\n\r\nB") := by
  have h : toStr "HTTP/1.1 200 OK\r\n\r\nA\r\n\r\nB" =
      toStr "HTTP/1.1 200 OK" ++ crlfcrlf ++ toStr "A\r\n\r\nB" := by decide
  rw [h, c4_single_split_first_separator (toStr "HTTP/1.1 200 OK")
    (toStr "A\r\n\r\nB") (by decide)]
  decide

/-- **C2** counterexample: parsing is not total. A status line whose
3-character code token is non-numeric (`"HTTP/1.1 ABC"`) panics at
`code.parse().unwrap()`, and a status line with no second space-separated
token (the empty response) panics at `parts.get(1).unwrap()` — neither
degrades to the `Failure` sentinel. `none` models the panic. -/
theorem c2_parse_totality_counterexample :
    new_response_from_complete (toStr "HTTP/1.1 ABC\r\n\r\nbody") = none ∧
    new_response_from_complete (toStr "") = none := by decide

/-- **C2** (amended): response parsing degrades to a `Response` (with the
`Failure` sentinel when the trimmed code token has a UTF-8 byte length
other than 3) whenever the status line has a second space-separated token
that either has trimmed byte length ≠ 3 or parses as a u16; outside
those cases it panics rather than degrading, and only transport I/O
errors propagate as errors before parsing begins. -/
theorem c2_parse_graceful_amended (s : Str)
    (hparts : 2 ≤ (statusLineParts s).length)
    (htok : utf8Len (rustTrim ((statusLineParts s).getD 1 [])) ≠ 3 ∨
      (parseU16 (rustTrim ((statusLineParts s).getD 1 []))).isSome = true) :
    (new_response_from_complete s).isSome = true ∧
    (utf8Len (rustTrim ((statusLineParts s).getD 1 [])) ≠ 3 →
      ∃ r, new_response_from_complete s = some r ∧
        r.status.1 = StatusCode.Failure) := by
  obtain ⟨h0, rest, hhl⟩ : ∃ h0 rest,
      splitSub crlf ((splitnTwoSub crlfcrlf s).headD []) = h0 :: rest := by
    cases hsb : splitSub crlf ((splitnTwoSub crlfcrlf s).headD []) with
    | nil => exact absurd hsb (splitSub_ne_nil _ _)
    | cons x r => exact ⟨x, r, rfl⟩
  have hp : statusLineParts s = splitSub (toStr " ") h0 := by
    unfold statusLineParts
    rw [hhl]
    rfl
  obtain ⟨tok, htk⟩ : ∃ tok, (splitSub (toStr " ") h0).get? 1 = some tok := by
    cases hg : (splitSub (toStr " ") h0).get? 1 with
    | none =>
      rw [List.get?_eq_none] at hg
      rw [hp] at hparts
      omega
    | some tok => exact ⟨tok, rfl⟩
  have htokd : (statusLineParts s).getD 1 [] = tok := by
    rw [hp, List.getD_eq_getD_get?, htk]
    rfl
  rw [htokd] at htok ⊢
  by_cases h3 : utf8Len (rustTrim tok) ≠ 3
  · have hfc : StatusCode.from_code tok = some StatusCode.Failure := by
      unfold StatusCode.from_code
      rw [if_pos h3]
    rw [new_response_eq s h0 rest tok StatusCode.Failure hhl htk hfc]
    exact ⟨rfl, fun _ => ⟨_, rfl, rfl⟩⟩
  · rcases htok with hbad | hps
    · exact absurd hbad h3
    · obtain ⟨n, hn⟩ := Option.isSome_iff_exists.mp hps
      obtain ⟨sc, hsc⟩ : ∃ sc, StatusCode.from_code tok = some sc := by
        unfold StatusCode.from_code
        rw [if_neg h3, hn]
        exact ⟨_, rfl⟩
      rw [new_response_eq s h0 rest tok sc hhl htk hsc]
      exact ⟨rfl, fun hbad => absurd hbad h3⟩

/-- **C2** witness: a wrong-length code token degrades to a `Response`
with the `Failure` sentinel instead of panicking. -/
theorem c2_parse_graceful_witness :
    (new_response_from_complete (toStr "HTTP/1.1 99 No\r\n\r\nbody")).isSome = true ∧
    (new_response_from_complete
        (toStr "HTTP/1.1 99 No\r\n\r\nbody")).map (fun r => r.status.1) =
      some StatusCode.Failure := by
  have h := c2_parse_graceful_amended (toStr "HTTP/1.1 99 No\r\n\r\nbody")
    (by decide) (Or.inl (by decide))
  refine ⟨h.1, ?_⟩
  obtain ⟨r, hr, hf⟩ := h.2 (by decide)
  rw [hr, Option.map_some', hf]
